import Mathlib

/-!
Verification development for the tibba biomarker extraction and scoring
engine.  The definitions below are a shallow embedding of the TypeScript
sources:

* `src/src/utils/parseFromText.ts` — free-text biomarker/value/unit
  extraction (`normalize`, `isBoundary`, `findAliasMatch`,
  `parseNumericToken`, `looksLikeUnitToken`, `findValueCandidate`,
  `parseBiomarkersFromFreeText`);
* `src/unnamed/part_001` — reference rule evaluation (`matchSingleRule`,
  `matchRule`, `pickSexRule`, `computeLevel`);
* `src/unnamed/part_002` — data model (`LevelKey`, `LEVEL_SCORE`,
  `BiomarkerRow`);
* `src/unnamed/part_003` lines 166-180 — numeric row scoring (`rowScore`).

Strings are modelled as `List Char` in the core; JavaScript numbers are
idealised as rationals (`ℚ`).  JavaScript regular expressions are
translated into explicit character-list parsers; where a regex engine
would backtrack, the surrounding character classes make the greedy parse
equivalent (noted at each definition).
-/

/-- JavaScript whitespace (`\s`) restricted to the characters that can
actually occur in this pipeline's inputs (space, tab, CR, LF). -/
def isWsJs (c : Char) : Bool :=
  c = ' ' || c = '\t' || c = '\n' || c = '\r'

/-- ASCII lowercase letter test (`[a-z]`). -/
def isAsciiLowerCh (c : Char) : Bool :=
  'a' ≤ c && c ≤ 'z'

/-- ASCII uppercase letter test (`[A-Z]`). -/
def isAsciiUpperCh (c : Char) : Bool :=
  'A' ≤ c && c ≤ 'Z'

/-- ASCII letter test, case-insensitive (`[a-z]` with the `i` flag). -/
def isAsciiLetterCh (c : Char) : Bool :=
  isAsciiLowerCh c || isAsciiUpperCh c

/-- ASCII digit test (`[0-9]` / `\d`). -/
def isDigitCh (c : Char) : Bool :=
  '0' ≤ c && c ≤ '9'

/-- Effect, on the Latin letters that occur in the supported locales, of
`s.normalize('NFD').replace(/\p{Diacritic}/gu, '')`: precomposed accented
letters lose their diacritic; every other character is unchanged. -/
def stripDiacriticChar (c : Char) : Char :=
  if c = 'á' then 'a' else if c = 'Á' then 'A'
  else if c = 'é' then 'e' else if c = 'É' then 'E'
  else if c = 'í' then 'i' else if c = 'Í' then 'I'
  else if c = 'ó' then 'o' else if c = 'Ó' then 'O'
  else if c = 'ú' then 'u' else if c = 'Ú' then 'U'
  else if c = 'ü' then 'u' else if c = 'Ü' then 'U'
  else if c = 'ñ' then 'n' else if c = 'Ñ' then 'N'
  else c

/-- `String.prototype.toLowerCase` on the character set reachable after
diacritic stripping (ASCII letters; all other reachable characters are
caseless). -/
def toLowerJs (c : Char) : Char :=
  if isAsciiUpperCh c then Char.ofNat (c.toNat + 32) else c

/-- The permitted character class of `normalize`
(`[^a-z0-9/%.,\sµμ^·\-]` is replaced by a space): lowercase letters,
digits, `/ % . , µ μ ^ · -` and whitespace survive. -/
def allowedChar (c : Char) : Bool :=
  isAsciiLowerCh c || isDigitCh c || c = '/' || c = '%' || c = '.' ||
    c = ',' || c = 'µ' || c = 'μ' || c = '^' || c = '·' || c = '-' || isWsJs c

/-- `replace(/\s+/g, ' ')`: collapse every maximal whitespace run to a
single space.  The flag records whether the previous character was
whitespace (in which case the current whitespace character is dropped). -/
def collapseWsAux : List Char → Bool → List Char
  | [], _ => []
  | c :: cs, prevWs =>
    if isWsJs c then
      if prevWs then collapseWsAux cs true else ' ' :: collapseWsAux cs true
    else c :: collapseWsAux cs false

def collapseWs (l : List Char) : List Char :=
  collapseWsAux l false

/-- `String.prototype.trim`: drop leading and trailing whitespace. -/
def trimJs (l : List Char) : List Char :=
  ((l.dropWhile isWsJs).reverse.dropWhile isWsJs).reverse

/-- `normalize` from `parseFromText.ts` (lines 79-86): NFD + diacritic
strip, lowercase, replace disallowed characters by spaces, collapse
whitespace, trim. -/
def normalizeChars (l : List Char) : List Char :=
  trimJs (collapseWs (((l.map stripDiacriticChar).map toLowerJs).map
    (fun c => if allowedChar c then c else ' ')))

def normalizeStr (s : String) : String :=
  String.mk (normalizeChars s.data)

/-- Splits a character list at every character satisfying `p`, keeping
empty segments (the behaviour of `String.prototype.split` with a
single-character alternation such as `/\n|\r|\r\n/`, where the `\r\n`
branch is shadowed by the first two). -/
def splitOnPred (p : Char → Bool) (l : List Char) : List (List Char) :=
  l.foldr
    (fun c acc =>
      if p c then [] :: acc
      else
        match acc with
        | [] => [[c]]
        | s :: rest => (c :: s) :: rest)
    [[]]

/-- `text.split(/\s+/).filter(Boolean)`: whitespace-separated tokens. -/
def tokensOf (l : List Char) : List (List Char) :=
  (splitOnPred isWsJs l).filter (· ≠ [])

/-- `token.replace(/,/g, '.')`: every comma becomes a dot. -/
def commaToDot (l : List Char) : List Char :=
  l.map (fun c => if c = ',' then '.' else c)

/-- Parses `[-+]?\d+(sep \d+)?` at the head of `l` for a given set of
decimal separators, returning the consumed prefix and the rest.  The
regexes in the source are anchored at the start; a backtracking engine
and this greedy parser agree because the characters that follow a
rejected fractional part (`.`/`,` or a digit) are never members of the
character classes the regexes continue with. -/
def parseSignedNum (sep : Char → Bool) (allowPlus : Bool) (l : List Char) :
    Option (List Char × List Char) :=
  let (sgn, l1) :=
    match l with
    | '-' :: rest => (['-'], rest)
    | '+' :: rest => if allowPlus then (['+'], rest) else ([], '+' :: rest)
    | _ => ([], l)
  let intPart := l1.takeWhile isDigitCh
  let l2 := l1.dropWhile isDigitCh
  if intPart = [] then none
  else
    match l2 with
    | c :: l3 =>
      if sep c then
        let fracPart := l3.takeWhile isDigitCh
        let l4 := l3.dropWhile isDigitCh
        if fracPart = [] then some (sgn ++ intPart, l2)
        else some (sgn ++ intPart ++ [c] ++ fracPart, l4)
      else some (sgn ++ intPart, l2)
    | [] => some (sgn ++ intPart, [])

/-- `/^[-+]?\d+(?:\.\d+)?$/.test(s)` (applied after comma replacement). -/
def isPlainNumber (l : List Char) : Bool :=
  match parseSignedNum (· = '.') true l with
  | some (_, rest) => rest = []
  | none => false

/-- The unit suffix class of the attached-unit regex
`[a-z%/µμ·\-]+` with the `i` flag. -/
def isUnitSuffixCh (c : Char) : Bool :=
  isAsciiLetterCh c || c = '%' || c = '/' || c = 'µ' || c = 'μ' ||
    c = '·' || c = '-'

/-- A value candidate: the numeric text (commas already replaced by
dots) and an optional attached or adjacent unit. -/
structure ValueCandidate where
  value : List Char
  units : Option (List Char)
deriving DecidableEq, Repr

/-- `parseNumericToken` from `parseFromText.ts` (lines 26-36): a bare
signed decimal (comma or dot separator), or a signed decimal immediately
followed by a unit-like suffix
(`/^([-+]?\d+(?:[\.,]\d+)?)([a-z%/µμ·\-]+)$/i`). -/
def parseNumericToken (token : List Char) : Option ValueCandidate :=
  let normalized := commaToDot token
  if isPlainNumber normalized then some ⟨normalized, none⟩
  else
    match parseSignedNum (fun c => c = '.' ∨ c = ',') true token with
    | some (numPart, rest) =>
      if rest ≠ [] ∧ rest.all isUnitSuffixCh then
        some ⟨commaToDot numPart, some rest⟩
      else none
    | none => none

/-- `looksLikeUnitToken` from `parseFromText.ts` (lines 38-43). -/
def looksLikeUnitToken (token : List Char) : Bool :=
  if token = [] then false
  else
    let trimmed := token.map toLowerJs
    if trimmed.length < 2 && !(trimmed.contains '%') then false
    else
      trimmed.any isAsciiLetterCh || trimmed.contains '/' ||
        trimmed.contains '·' || trimmed.contains '%' ||
        trimmed.contains 'µ' || trimmed.contains 'μ'

/-- `/^[0-9]+(?:[/^]|x10)/.test(s)`: digits then `/`, `^`, or `x10`. -/
def startsLikeSecondBound (l : List Char) : Bool :=
  let ds := l.takeWhile isDigitCh
  let rest := l.dropWhile isDigitCh
  ds ≠ [] &&
    (match rest with
     | '/' :: _ => true
     | '^' :: _ => true
     | 'x' :: '1' :: '0' :: _ => true
     | _ => false)

/-- The closed word set of `findValueCandidate` line 62. -/
def qualifierWords : List (List Char) :=
  [['h','a','s','t','a'], ['a','t','e'], ['t','o'], ['a'],
   ['s','u','p'], ['i','n','f'], ['m','a','x'], ['m','i','n'],
   ['d','e','s','d','e']]

/-- The comparator token set of `findValueCandidate` line 63. -/
def comparatorTokens : List (List Char) :=
  [['<'], ['>'], ['<','='], ['>','='], ['=','<'], ['=','>']]

/-- One step of the candidate loop in `findValueCandidate`
(lines 47-75): `prev` is the previous token (`''` encoded as `[]`). -/
def findValueCandidateAux : List Char → List (List Char) → Option ValueCandidate
  | _, [] => none
  | prev, tok :: rest =>
    let next := rest.headD []
    match parseNumericToken tok with
    | none => findValueCandidateAux tok rest
    | some cand =>
      let nextLower := next.map toLowerJs
      let prevLower := prev.map toLowerJs
      if (match cand.units with | some u => u.contains '^' | none => false) then
        findValueCandidateAux tok rest
      else if (match cand.units with
               | some u => u.length ≤ 1 && !(u.any isAsciiLetterCh) && u.contains '/'
               | none => false) then
        findValueCandidateAux tok rest
      else if nextLower ≠ [] ∧ (nextLower = ['-'] ∨ nextLower = ['–']) then
        findValueCandidateAux tok rest
      else if prevLower ≠ [] ∧ (prevLower = ['-'] ∨ prevLower = ['–']) then
        findValueCandidateAux tok rest
      else if startsLikeSecondBound nextLower && !(nextLower.any isAsciiLetterCh) then
        findValueCandidateAux tok rest
      else if prevLower ∈ qualifierWords then
        findValueCandidateAux tok rest
      else if prevLower ∈ comparatorTokens then
        findValueCandidateAux tok rest
      else
        let units : Option (List Char) :=
          match cand.units with
          | some u => some u
          | none =>
            if looksLikeUnitToken next then some next
            else if looksLikeUnitToken prev && (parseNumericToken prev).isNone then
              some prev
            else none
        some ⟨cand.value, units⟩

/-- `findValueCandidate` from `parseFromText.ts` (lines 45-77). -/
def findValueCandidate (text : List Char) : Option ValueCandidate :=
  findValueCandidateAux [] (tokensOf text)

/-- `isBoundary` from `parseFromText.ts` (lines 4-7) on an optional
neighbouring character (`undefined` encoded as `none`; the source
substitutes a space at the line edges, which is likewise a boundary). -/
def isBoundaryOpt (inner : Char → Bool) : Option Char → Bool
  | none => true
  | some c => !(inner c)

/-- Scans positions left to right for the first occurrence of `pat`
delimited on both sides by non-`inner` characters (or the line edges).
This is the net effect of the `indexOf`/retry loop in `findAliasMatch`
(lines 9-22): the loop visits occurrences in increasing position order
and returns the first one whose neighbours pass `isBoundary`. -/
def findDelimAux (inner : Char → Bool) (pat : List Char) :
    Option Char → List Char → Nat → Option (Nat × Nat)
  | prev, l, pos =>
    if pat.isPrefixOf l ∧ isBoundaryOpt inner prev ∧
        isBoundaryOpt inner (l.drop pat.length).head? then
      some (pos, pos + pat.length)
    else
      match l with
      | [] => none
      | c :: rest => findDelimAux inner pat (some c) rest (pos + 1)

/-- Character class `[a-z0-9]` of `isBoundary`. -/
def isAliasInnerCh (c : Char) : Bool :=
  isAsciiLowerCh c || isDigitCh c

/-- `findAliasMatch` from `parseFromText.ts` (lines 9-22): first
boundary-delimited occurrence of `alias` in `line`, as
(start, end) indices. -/
def findAliasMatch (line al : List Char) : Option (Nat × Nat) :=
  findDelimAux isAliasInnerCh al none line 0

/-- Word character class `\w` = `[a-zA-Z0-9_]` of the `\b` boundary. -/
def isWordCh (c : Char) : Bool :=
  isAsciiLetterCh c || isDigitCh c || c = '_'

/-- `/\bsaturacion\b/.test(line)` from the `skipForCanonical` table
(`parseFromText.ts` line 103). -/
def hasSaturacionWord (line : List Char) : Bool :=
  (findDelimAux isWordCh
    ['s','a','t','u','r','a','c','i','o','n'] none line 0).isSome

/-- `skipForCanonical` (`parseFromText.ts` lines 102-104): the only
keyed canonical is `Transferrina`. -/
def skipForCanonical (canonical : String) (line : List Char) : Bool :=
  if canonical = "Transferrina" then hasSaturacionWord line else false

/-- One biomarker catalog entry: aliases and optional category
(the shape of the `SUPPORTED_BIOMARKERS` values). -/
structure CatalogMeta where
  aliases : List String
  category : Option String
deriving DecidableEq, Repr

/-- The biomarker catalog, an insertion-ordered map from canonical name
to metadata (the shape of `SUPPORTED_BIOMARKERS` from the absent
`biomarkerMap.ts`; per the spec's design notes the catalog is passed as
an explicit immutable configuration). -/
def Catalog := List (String × CatalogMeta)

/-- JavaScript object property assignment `obj[k] = v`: an existing key
keeps its original position, a new key is appended. -/
def upsert (m : List (String × String)) (k v : String) :
    List (String × String) :=
  if m.any (fun p => p.1 = k) then
    m.map (fun p => if p.1 = k then (k, v) else p)
  else m ++ [(k, v)]

/-- The `aliasToName` lookup (`parseFromText.ts` lines 93-99): for each
catalog entry, every normalized alias and the normalized canonical name
map to the canonical name. -/
def aliasToName (cat : Catalog) : List (String × String) :=
  cat.foldl
    (fun m entry =>
      upsert (entry.2.aliases.foldl
        (fun m a => upsert m (normalizeStr a) entry.1) m)
        (normalizeStr entry.1) entry.1)
    []

/-- Stable insertion for the descending-length sort
(`sortByLenDesc` recurses from the left, so the inserted pair precedes
every pair of equal length, which all originate later in the list; this
reproduces the stable JavaScript sort with comparator
`b[0].length - a[0].length`). -/
def insertByLenDesc (p : String × String) :
    List (String × String) → List (String × String)
  | [] => [p]
  | q :: qs =>
    if q.1.length ≤ p.1.length then p :: q :: qs
    else q :: insertByLenDesc p qs

def sortByLenDesc : List (String × String) → List (String × String)
  | [] => []
  | p :: ps => insertByLenDesc p (sortByLenDesc ps)

/-- `aliasEntries` (`parseFromText.ts` line 101). -/
def aliasEntriesOf (cat : Catalog) : List (String × String) :=
  sortByLenDesc (aliasToName cat)

/-- The polymorphic value field of a `BiomarkerRecord`
(`number | string`). -/
inductive JsValue where
  | num (q : ℚ)
  | str (s : String)
deriving DecidableEq, Repr

/-- The natural number denoted by a digit string. -/
def digitsToNat (l : List Char) : ℕ :=
  l.foldl (fun a c => a * 10 + (c.toNat - '0'.toNat)) 0

/-- `Number(rawVal)` on the captured decimal text: `rawVal` always has
shape `[-+]?\d+(\.\d+)?` here, parsed exactly into the rational
`±(intPart + fracPart / 10^k)`, computed as
`±(intDigits ++ fracDigits) / 10^k`; any other shape is NaN (`none`).
The digit accumulation stays in `ℕ` so that concrete inputs evaluate
inside the kernel. -/
def jsNumber (l : List Char) : Option ℚ :=
  match parseSignedNum (· = '.') true l with
  | some (_, rest) =>
    if rest = [] then
      let neg := l.head? = some '-'
      let l1 := if l.head? = some '-' ∨ l.head? = some '+' then l.drop 1 else l
      let intPart := l1.takeWhile isDigitCh
      let fracPart := (l1.dropWhile isDigitCh).drop 1
      let q : ℚ :=
        if fracPart = [] then (digitsToNat intPart : ℚ)
        else (digitsToNat (intPart ++ fracPart) : ℚ) / ((10 ^ fracPart.length : ℕ) : ℚ)
      some (if neg then -q else q)
    else none
  | none => none

/-- `BiomarkerRecord` from `types.ts`. -/
structure BiomarkerRecord where
  biomarker : String
  value : JsValue
  units : Option String
  date : Option String
  category : Option String
deriving DecidableEq, Repr

/-- Record assembly from `parseBiomarkersFromFreeText` lines 121-127:
parse the raw value (falling back to the raw string on NaN), trim the
unit (empty trimmed unit becomes absent), look up the category. -/
def mkRecord (cat : Catalog) (date : Option String) (canonical : String)
    (cand : ValueCandidate) : BiomarkerRecord :=
  { biomarker := canonical
    value :=
      match jsNumber cand.value with
      | some q => JsValue.num q
      | none => JsValue.str (String.mk cand.value)
    units :=
      match cand.units with
      | some u =>
        let t := trimJs u
        if t = [] then none else some (String.mk t)
      | none => none
    date := date
    category :=
      ((cat.find? (fun e => e.1 = canonical)).map (fun e => e.2.category)).join }

/-- The inner alias loop of `parseBiomarkersFromFreeText`
(lines 108-130): the first alias pair that matches at a boundary, is
not excluded by `skipForCanonical`, and yields a value candidate in the
line's tail produces the line's record; the `break` ends the scan.
The scan does not depend on the accumulated results. -/
def scanAliases (cat : Catalog) (date : Option String) :
    List (String × String) → List Char → Option BiomarkerRecord
  | [], _ => none
  | (al, canonical) :: rest, line =>
    match findAliasMatch line al.data with
    | none => scanAliases cat date rest line
    | some m =>
      if skipForCanonical canonical line then scanAliases cat date rest line
      else
        match findValueCandidate (line.drop m.2) with
        | none => scanAliases cat date rest line
        | some cand => some (mkRecord cat date canonical cand)

/-- The normalized, non-empty lines of the input
(`parseBiomarkersFromFreeText` line 89). -/
def linesOf (text : String) : List (List Char) :=
  ((splitOnPred (fun c => c = '\n' || c = '\r') text.data).map
    (fun l => normalizeChars (trimJs l))).filter (· ≠ [])

/-- The dedup-guarded accumulation step (lines 126-128): a record whose
canonical biomarker is already present is discarded. -/
def insertRecord (acc : List BiomarkerRecord) (r : BiomarkerRecord) :
    List BiomarkerRecord :=
  if acc.any (fun s => s.biomarker = r.biomarker) then acc else acc ++ [r]

/-- `parseBiomarkersFromFreeText` from `parseFromText.ts`
(lines 88-133), with the catalog passed explicitly. -/
def parseBiomarkersFromFreeText (cat : Catalog) (text : String)
    (date : Option String) : List BiomarkerRecord :=
  let entries := aliasEntriesOf cat
  (linesOf text).foldl
    (fun acc line =>
      match scanAliases cat date entries line with
      | some r => insertRecord acc r
      | none => acc)
    []

/-- The per-line extraction events in document order: for each
normalized line, the record its alias scan produces (if any). -/
def extractionEvents (cat : Catalog) (text : String)
    (date : Option String) : List BiomarkerRecord :=
  (linesOf text).filterMap (scanAliases cat date (aliasEntriesOf cat))

/-- `LevelKey` from `types.ts`. -/
inductive LevelKey where
  | excelente
  | bueno
  | regular
  | malo
deriving DecidableEq, Repr

/-- `LEVEL_SCORE` from `types.ts` (part_002 lines 25-30). -/
def LEVEL_SCORE : LevelKey → ℚ
  | .excelente => 1
  | .bueno => 85 / 100
  | .regular => 6 / 10
  | .malo => 2 / 10

/-- `BiomarkerRow` from `types.ts` (part_002 lines 44-53). -/
structure BiomarkerRow where
  name : String
  value : ℚ
  unit : Option String := none
  refLow : Option ℚ := none
  refHigh : Option ℚ := none
  category : Option String := none
  referenceLevel : Option LevelKey := none
  referenceText : Option String := none
deriving DecidableEq, Repr

/-- `v >= low` with `low = r.refLow ?? -Infinity`. -/
def geLowBound (r : BiomarkerRow) : Bool :=
  match r.refLow with
  | none => true
  | some l => decide (l ≤ r.value)

/-- `v <= high` with `high = r.refHigh ?? Infinity`. -/
def leHighBound (r : BiomarkerRow) : Bool :=
  match r.refHigh with
  | none => true
  | some h => decide (r.value ≤ h)

/-- The numeric branch of `rowScore`, translated from part_003
lines 166-180 (the dashboard's scoring function).  `±Infinity`
surrogates for absent bounds only ever feed the comparisons, so the
`Option` case split below is exact: with `low = -Infinity` the guard
`v < low` is false and `dist = v - high` (reachable only when
`refHigh` is present, since the in-range test failed); with
`high = Infinity` the in-range test forces `v < low`. -/
def rowScoreNumeric (r : BiomarkerRow) : ℚ :=
  if r.refLow = none ∧ r.refHigh = none then 1
  else if geLowBound r && leHighBound r then 1
  else
    let width : ℚ :=
      match r.refLow, r.refHigh with
      | some l, some h => max (1 / 1000000000) (h - l)
      | _, _ => max (1 / 1000000000) (|r.value| * (2 / 10))
    let dist : ℚ :=
      match r.refLow, r.refHigh with
      | some l, some h => if r.value < l then l - r.value else r.value - h
      | some l, none => l - r.value
      | none, some h => r.value - h
      | none, none => 0
    max 0 (1 - dist / width)

/-- Modelled from the spec: the project-wide `rowScore` lives in
`src/utils/scoringUtil.ts`, which is absent from the sources (only the
importing component in part_003 and the declarations `LEVEL_SCORE` and
`BiomarkerRow.referenceLevel` in part_002 survive).  Spec §4.6: "if row
carries a precomputed qualitative level, map it through a fixed
level→score table … and return directly — bypassing numeric distance
entirely"; otherwise the numeric branch, which coincides with the
in-repo scorer of part_003 lines 166-180 (`rowScoreNumeric`). -/
def rowScore (r : BiomarkerRow) : ℚ :=
  match r.referenceLevel with
  | some lvl => LEVEL_SCORE lvl
  | none => rowScoreNumeric r

/-- `Sex` argument of the rule evaluator (`"H" | "M" | "U"`). -/
inductive Sex where
  | H
  | M
  | U
deriving DecidableEq, Repr

/-- `SexRules` from `ReferenceProvider.tsx`. -/
structure SexRules where
  unisex : Option String
  male : Option String
  female : Option String
deriving DecidableEq, Repr

/-- `BiomarkerEntry` from `ReferenceProvider.tsx` (the rule evaluator
only reads `levels`; the remaining fields are carried for fidelity). -/
structure BiomarkerEntry where
  id : String := ""
  name : String := ""
  units : Option String := none
  category : String := "general"
  levels : LevelKey → SexRules
  raw : LevelKey → String := fun _ => ""

/-- JavaScript truthiness of a `string | null` value: `null` and the
empty string are falsy. -/
def jsTruthy : Option String → Bool
  | none => false
  | some s => s ≠ ""

/-- `rule.replace(",", ".")`: only the FIRST comma is replaced (no `g`
flag in part_001 line 14). -/
def replaceFirstComma : List Char → List Char
  | [] => []
  | c :: cs => if c = ',' then '.' :: cs else c :: replaceFirstComma cs

/-- `-?\d+(\.\d+)?` at the head of the rule text, returning the parsed
rational and the rest (the rule regexes allow only `-`, not `+`). -/
def parseRuleNum (l : List Char) : Option (ℚ × List Char) :=
  match parseSignedNum (· = '.') false l with
  | some (numTxt, rest) => (jsNumber numTxt).map (fun q => (q, rest))
  | none => none

/-- `matchSingleRule` from part_001 lines 13-44: try, in order, a range
`a - b` (dash or en-dash, inclusive, orientation-insensitive), a
comparator `< > <= >= ≤ ≥`, then a bare number (exact equality); the
range and comparator regexes are anchored only at the start, so
trailing text is ignored. -/
def matchSingleRule (rule : String) (value : ℚ) : Bool :=
  let r := trimJs (replaceFirstComma rule.data)
  match parseRuleNum r with
  | some (a, rest1) =>
    match (rest1.dropWhile isWsJs) with
    | d :: rest2 =>
      if d = '-' ∨ d = '–' then
        match parseRuleNum (rest2.dropWhile isWsJs) with
        | some (b, _) => decide (min a b ≤ value ∧ value ≤ max a b)
        | none => false
      else false
    | [] =>
      -- no dash after the leading number: the range and comparator
      -- regexes fail, the exact regex requires the whole text consumed
      if rest1 = [] then decide (value = a) else false
  | none =>
    match r with
    | '<' :: '=' :: rest => cmpTail rest (fun n => decide (value ≤ n))
    | '<' :: rest => cmpTail rest (fun n => decide (value < n))
    | '>' :: '=' :: rest => cmpTail rest (fun n => decide (value ≥ n))
    | '>' :: rest => cmpTail rest (fun n => decide (value > n))
    | '≤' :: rest => cmpTail rest (fun n => decide (value ≤ n))
    | '≥' :: rest => cmpTail rest (fun n => decide (value ≥ n))
    | _ => false
where
  /-- `\s*(-?\d+(\.\d+)?)` after a comparator. -/
  cmpTail (rest : List Char) (k : ℚ → Bool) : Bool :=
    match parseRuleNum (rest.dropWhile isWsJs) with
    | some (n, _) => k n
    | none => false

/-- One global `replace(/\s*X\s*/g, "|")` pass (part_001 lines 50-53,
with `X` the literal `o` under the `i` flag, `/`, or `;`): scanning left
to right, a maximal `whitespace* separator whitespace*` block becomes a
single `|`; any other character is copied. -/
def replaceSepsAux (isSep : Char → Bool) : Nat → List Char → List Char
  | _, [] => []
  | 0, l => l
  | fuel + 1, c :: cs =>
    match (c :: cs).dropWhile isWsJs with
    | d :: ds =>
      if isSep d then '|' :: replaceSepsAux isSep fuel (ds.dropWhile isWsJs)
      else c :: replaceSepsAux isSep fuel cs
    | [] => c :: cs

def replaceSeps (isSep : Char → Bool) (l : List Char) : List Char :=
  replaceSepsAux isSep l.length l

/-- Splits on `|` (the `split("|")` of part_001 line 54). -/
def splitPipe (l : List Char) : List (List Char) :=
  splitOnPred (· = '|') l

/-- `matchRule` from part_001 lines 47-59: replace the OR separators
(the letter `o` case-insensitively, `/`, `;`, each with surrounding
whitespace) by `|`, split, trim, drop empties, and test whether any
part matches. -/
def matchRule (rule : Option String) (value : ℚ) : Bool :=
  match rule with
  | none => false
  | some ru =>
    let parts :=
      ((splitPipe
        (replaceSeps (· = ';')
          (replaceSeps (· = '/')
            (replaceSeps (fun c => c = 'o' || c = 'O') ru.data)))).map
        trimJs).filter (· ≠ [])
    parts.any (fun p => matchSingleRule (String.mk p) value)

/-- `pickSexRule` from part_001 lines 61-66 (`??` is nullish
coalescing, but the sex-specific guards use truthiness). -/
def pickSexRule (entry : BiomarkerEntry) (level : LevelKey) (sex : Sex) :
    Option String :=
  let set := entry.levels level
  if sex = Sex.H ∧ jsTruthy set.male then set.male
  else if sex = Sex.M ∧ jsTruthy set.female then set.female
  else (set.unisex.orElse fun _ => set.male).orElse fun _ => set.female

/-- The best-to-worst priority loop of `computeLevel`
(part_001 lines 74-78): `rule && matchRule(rule, value)` guards each
level (an empty-string rule is falsy and skipped). -/
def computeLevelLoop (entry : BiomarkerEntry) (value : ℚ) (sex : Sex) :
    List LevelKey → Option LevelKey
  | [] => none
  | lvl :: rest =>
    let rule := pickSexRule entry lvl sex
    if jsTruthy rule && matchRule rule value then some lvl
    else computeLevelLoop entry value sex rest

/-- The priority order of part_001 line 74. -/
def levelOrder : List LevelKey :=
  [.excelente, .bueno, .regular, .malo]

/-- `computeLevel` from part_001 lines 68-83, including the final
defensive re-check of the `malo` rule (lines 80-81). -/
def computeLevel (entry : BiomarkerEntry) (value : ℚ)
    (sex : Sex := Sex.U) : Option LevelKey :=
  match computeLevelLoop entry value sex levelOrder with
  | some lvl => some lvl
  | none =>
    let bad := pickSexRule entry .malo sex
    if jsTruthy bad && matchRule bad value then some .malo else none

/-- The variant of `computeLevel` without the final defensive `malo`
re-check, the comparison point of the refinement claim: just the
best-to-worst priority loop. -/
def computeLevelNoFallback (entry : BiomarkerEntry) (value : ℚ)
    (sex : Sex := Sex.U) : Option LevelKey :=
  computeLevelLoop entry value sex levelOrder

/-- The catalog stipulated by the end-to-end claim: alias "Glucosa" →
a metabolic biomarker, "Colesterol Total" → a cardiovascular one. -/
def glucosaCatalog : Catalog :=
  [("Glucosa", ⟨[], some "metabolic"⟩),
   ("Colesterol Total", ⟨[], some "cardiovascular"⟩)]

/-- The two-line input of the end-to-end claim. -/
def c1Text : String :=
  "Glucosa ............ 92 mg/dl\nColesterol Total: 210 mg/dL"

/-- Single-alias catalog for the range-rejection input. -/
def colesterolCatalog : Catalog := [("colesterol", ⟨[], none⟩)]

/-- Single-alias catalog for the comparator input. -/
def glucosaOnlyCatalog : Catalog := [("glucosa", ⟨[], none⟩)]

/-- Two-biomarker catalog exercising the per-line scan policy: `A` owns
alias "aa", `B` owns alias "b". -/
def abCatalog : Catalog :=
  [("A", ⟨["aa"], some "general"⟩), ("B", ⟨["b"], some "general"⟩)]

/-- Catalog with the short alias "transferrina" and the longer alias
"saturacion de transferrina" owned by different canonical biomarkers. -/
def transferrinaCatalog : Catalog :=
  [("SaturacionTransferrina", ⟨["saturacion de transferrina"], some "general"⟩),
   ("Transferrina", ⟨["transferrina"], some "general"⟩)]

/-- Reference entry with unisex rule "70 - 99" for `bueno` and
"< 70 o > 125" for `malo`, and no rule text for the other levels. -/
def glucoseEntry : BiomarkerEntry :=
  { levels := fun lvl =>
      match lvl with
      | .bueno => ⟨some "70 - 99", none, none⟩
      | .malo => ⟨some "< 70 o > 125", none, none⟩
      | _ => ⟨none, none, none⟩ }

/-! ## Helper lemmas -/

/-- A character that can survive in normalizer output other than as the
single separating space: permitted and not whitespace. -/
def canonChar (c : Char) : Bool :=
  allowedChar c && !(isWsJs c)

/-- Shape of every `normalizeChars` output: only permitted non-space
characters and single separating spaces, with no space at either end. -/
structure CanonShape (l : List Char) : Prop where
  chars : ∀ c ∈ l, canonChar c = true ∨ c = ' '
  nodbl : l.Chain' fun a b => ¬(a = ' ' ∧ b = ' ')
  hd : ∀ c ∈ l.head?, c ≠ ' '
  lst : ∀ c ∈ l.getLast?, c ≠ ' '

theorem map_id_on {f : Char → Char} : ∀ l : List Char,
    (∀ c ∈ l, f c = c) → l.map f = l
  | [], _ => rfl
  | c :: cs, h => by
    simp only [List.map_cons, h c (by simp)]
    rw [map_id_on cs (fun d hd => h d (by simp [hd]))]

theorem allowed_of_canon {c : Char} (h : canonChar c = true) :
    allowedChar c = true := by
  simp only [canonChar, Bool.and_eq_true] at h
  exact h.1

theorem not_ws_of_canon {c : Char} (h : canonChar c = true) :
    isWsJs c = false := by
  simp only [canonChar, Bool.and_eq_true, Bool.not_eq_true'] at h
  exact h.2

theorem not_upper_of_allowed {c : Char} (h : allowedChar c = true) :
    isAsciiUpperCh c = false := by
  simp only [allowedChar, isAsciiLowerCh, isDigitCh, isWsJs, Bool.or_eq_true,
    Bool.and_eq_true, decide_eq_true_eq] at h
  simp only [isAsciiUpperCh]
  rcases h with ((((((((((⟨h1, h2⟩ | ⟨h1, h2⟩) | hc) | hc) | hc) | hc) | hc) |
    hc) | hc) | hc) | hc) | (((hc | hc) | hc) | hc)
  · rw [decide_eq_false (fun hz : c ≤ 'Z' => absurd (h1.trans hz) (by decide))]
    rw [Bool.and_false]
  · rw [decide_eq_false (fun hA : 'A' ≤ c => absurd (hA.trans h2) (by decide))]
    rw [Bool.false_and]
  all_goals subst hc
  all_goals decide

theorem allowed_ne_accent {c : Char} (h : allowedChar c = true) {d : Char}
    (hd : allowedChar d = false) : c ≠ d := by
  rintro rfl
  rw [h] at hd
  cases hd

theorem strip_id_of_allowed {c : Char} (h : allowedChar c = true) :
    stripDiacriticChar c = c := by
  unfold stripDiacriticChar
  rw [if_neg (allowed_ne_accent h (by decide)),
    if_neg (allowed_ne_accent h (by decide)),
    if_neg (allowed_ne_accent h (by decide)),
    if_neg (allowed_ne_accent h (by decide)),
    if_neg (allowed_ne_accent h (by decide)),
    if_neg (allowed_ne_accent h (by decide)),
    if_neg (allowed_ne_accent h (by decide)),
    if_neg (allowed_ne_accent h (by decide)),
    if_neg (allowed_ne_accent h (by decide)),
    if_neg (allowed_ne_accent h (by decide)),
    if_neg (allowed_ne_accent h (by decide)),
    if_neg (allowed_ne_accent h (by decide)),
    if_neg (allowed_ne_accent h (by decide)),
    if_neg (allowed_ne_accent h (by decide))]

theorem lower_id_of_allowed {c : Char} (h : allowedChar c = true) :
    toLowerJs c = c := by
  unfold toLowerJs
  rw [not_upper_of_allowed h]
  rfl

theorem collapseWsAux_cons_ws_false {c : Char} {cs : List Char}
    (hw : isWsJs c = true) :
    collapseWsAux (c :: cs) false = ' ' :: collapseWsAux cs true := by
  simp [collapseWsAux, hw]

theorem collapseWsAux_cons_ws_true {c : Char} {cs : List Char}
    (hw : isWsJs c = true) :
    collapseWsAux (c :: cs) true = collapseWsAux cs true := by
  simp [collapseWsAux, hw]

theorem collapseWsAux_cons_not_ws {c : Char} {cs : List Char} {flag : Bool}
    (hw : isWsJs c = false) :
    collapseWsAux (c :: cs) flag = c :: collapseWsAux cs false := by
  simp [collapseWsAux, hw]

theorem collapse_chars (l : List Char) (flag : Bool)
    (hall : ∀ c ∈ l, allowedChar c = true) :
    ∀ c ∈ collapseWsAux l flag, canonChar c = true ∨ c = ' ' := by
  induction l generalizing flag with
  | nil => simp [collapseWsAux]
  | cons c cs ih =>
    intro d hd
    have hallcs : ∀ x ∈ cs, allowedChar x = true :=
      fun x hx => hall x (by simp [hx])
    by_cases hw : isWsJs c = true
    · cases flag with
      | true =>
        rw [collapseWsAux_cons_ws_true hw] at hd
        exact ih true hallcs d hd
      | false =>
        rw [collapseWsAux_cons_ws_false hw] at hd
        rcases List.mem_cons.mp hd with rfl | hd2
        · exact Or.inr rfl
        · exact ih true hallcs d hd2
    · rw [Bool.not_eq_true] at hw
      rw [collapseWsAux_cons_not_ws hw] at hd
      rcases List.mem_cons.mp hd with rfl | hd2
      · refine Or.inl ?_
        simp only [canonChar, Bool.and_eq_true, Bool.not_eq_true']
        exact ⟨hall d (by simp), hw⟩
      · exact ih false hallcs d hd2

theorem collapse_nodbl (l : List Char) :
    ∀ flag : Bool,
      (collapseWsAux l flag).Chain' (fun a b => ¬(a = ' ' ∧ b = ' ')) ∧
      (flag = true → ∀ c ∈ (collapseWsAux l flag).head?, c ≠ ' ') := by
  induction l with
  | nil => intro flag; constructor <;> simp [collapseWsAux]
  | cons c cs ih =>
    intro flag
    by_cases hw : isWsJs c = true
    · cases flag with
      | true =>
        rw [collapseWsAux_cons_ws_true hw]
        exact (ih true).imp id (fun h _ => h rfl)
      | false =>
        rw [collapseWsAux_cons_ws_false hw]
        constructor
        · rw [List.chain'_cons']
          refine ⟨?_, (ih true).1⟩
          intro b hb
          have hbne := (ih true).2 rfl b hb
          rintro ⟨-, rfl⟩
          exact hbne rfl
        · intro hfalse
          cases hfalse
    · rw [Bool.not_eq_true] at hw
      rw [collapseWsAux_cons_not_ws hw]
      have hcne : c ≠ ' ' := by
        rintro rfl
        simp [isWsJs] at hw
      constructor
      · rw [List.chain'_cons']
        refine ⟨?_, (ih false).1⟩
        intro b _
        rintro ⟨rfl, -⟩
        exact hcne rfl
      · intro _ d hd
        simp only [List.head?_cons, Option.mem_def, Option.some.injEq] at hd
        subst hd
        exact hcne

theorem collapse_id_aux (l : List Char)
    (hws : ∀ c ∈ l, isWsJs c = true → c = ' ')
    (hch : l.Chain' fun a b => ¬(a = ' ' ∧ b = ' ')) :
    collapseWsAux l false = l ∧
      ((∀ c ∈ l.head?, c ≠ ' ') → collapseWsAux l true = l) := by
  induction l with
  | nil => exact ⟨rfl, fun _ => rfl⟩
  | cons c cs ih =>
    have hwscs : ∀ x ∈ cs, isWsJs x = true → x = ' ' :=
      fun x hx => hws x (by simp [hx])
    have hchcs : cs.Chain' fun a b => ¬(a = ' ' ∧ b = ' ') :=
      (List.chain'_cons'.mp hch).2
    by_cases hw : isWsJs c = true
    · have hceq : c = ' ' := hws c (by simp) hw
      subst hceq
      constructor
      · rw [collapseWsAux_cons_ws_false hw]
        have hhd : ∀ x ∈ cs.head?, x ≠ ' ' := by
          intro x hx
          have := (List.chain'_cons'.mp hch).1 x hx
          intro hxeq
          exact this ⟨rfl, hxeq⟩
        rw [(ih hwscs hchcs).2 hhd]
      · intro hcontra
        exact absurd rfl (hcontra ' ' rfl)
    · rw [Bool.not_eq_true] at hw
      constructor
      · rw [collapseWsAux_cons_not_ws hw, (ih hwscs hchcs).1]
      · intro _
        rw [collapseWsAux_cons_not_ws hw, (ih hwscs hchcs).1]

theorem dropWhile_head_not (p : Char → Bool) :
    ∀ l : List Char, ∀ c ∈ (l.dropWhile p).head?, p c = false
  | [], c, hc => by cases hc
  | a :: l, c, hc => by
    rw [List.dropWhile_cons] at hc
    split_ifs at hc with ha
    · exact dropWhile_head_not p l c hc
    · simp only [List.head?_cons, Option.mem_def, Option.some.injEq] at hc
      subst hc
      simpa using ha

theorem getLast?_dropWhile_of_ne_nil (p : Char → Bool) (l : List Char)
    (h : l.dropWhile p ≠ []) : (l.dropWhile p).getLast? = l.getLast? := by
  conv_rhs => rw [← List.takeWhile_append_dropWhile p l]
  rw [List.getLast?_append_of_ne_nil (l.takeWhile p) h]

theorem chain'_dropWhile {R : Char → Char → Prop} (p : Char → Bool) :
    ∀ l : List Char, l.Chain' R → (l.dropWhile p).Chain' R
  | [], h => h
  | a :: l, h => by
    rw [List.dropWhile_cons]
    split_ifs
    · exact chain'_dropWhile p l (List.chain'_cons'.mp h).2
    · exact h

theorem mem_of_trim {c : Char} {l : List Char} (h : c ∈ trimJs l) : c ∈ l := by
  unfold trimJs at h
  rw [List.mem_reverse] at h
  have h2 := (List.dropWhile_sublist _).subset h
  rw [List.mem_reverse] at h2
  exact (List.dropWhile_sublist _).subset h2

theorem trim_id_of (l : List Char)
    (h1 : ∀ c ∈ l.head?, isWsJs c = false)
    (h2 : ∀ c ∈ l.getLast?, isWsJs c = false) : trimJs l = l := by
  unfold trimJs
  have e1 : l.dropWhile isWsJs = l := by
    cases l with
    | nil => rfl
    | cons c cs =>
      rw [List.dropWhile_cons, if_neg]
      rw [h1 c rfl]
      simp
  rw [e1]
  have e2 : l.reverse.dropWhile isWsJs = l.reverse := by
    cases hr : l.reverse with
    | nil => rfl
    | cons c cs =>
      have hlast : c ∈ l.getLast? := by
        rw [← List.head?_reverse, hr]
        rfl
      rw [List.dropWhile_cons, if_neg]
      rw [h2 c hlast]
      simp
  rw [e2, List.reverse_reverse]

theorem chain'_spaces_reverse {l : List Char}
    (h : l.Chain' fun a b => ¬(a = ' ' ∧ b = ' ')) :
    l.reverse.Chain' fun a b => ¬(a = ' ' ∧ b = ' ') := by
  rw [List.chain'_reverse]
  exact h.imp (fun a b hab hba => hab ⟨hba.2, hba.1⟩)

theorem canonShape_normalize (l : List Char) : CanonShape (normalizeChars l) := by
  show CanonShape (trimJs (collapseWsAux (((l.map stripDiacriticChar).map
    toLowerJs).map (fun c => if allowedChar c then c else ' ')) false))
  set m := ((l.map stripDiacriticChar).map toLowerJs).map
    (fun c => if allowedChar c then c else ' ') with hm
  have hall : ∀ c ∈ m, allowedChar c = true := by
    intro c hc
    rw [hm] at hc
    simp only [List.mem_map] at hc
    obtain ⟨b, -, rfl⟩ := hc
    by_cases hb : allowedChar b = true
    · rwa [if_pos hb]
    · rw [if_neg hb]
      decide
  set X := collapseWsAux m false with hX
  constructor
  · intro c hc
    exact collapse_chars m false hall c (mem_of_trim hc)
  · show (trimJs X).Chain' fun a b => ¬(a = ' ' ∧ b = ' ')
    unfold trimJs
    exact chain'_spaces_reverse (chain'_dropWhile _ _
      (chain'_spaces_reverse (chain'_dropWhile _ _ (collapse_nodbl m false).1)))
  · intro c hc
    show c ≠ ' '
    have hc2 : c ∈ (((X.dropWhile isWsJs).reverse.dropWhile isWsJs)).getLast? := by
      rw [← List.head?_reverse]
      exact hc
    have hYne : (X.dropWhile isWsJs).reverse.dropWhile isWsJs ≠ [] := by
      intro hnil
      rw [hnil] at hc2
      cases hc2
    rw [getLast?_dropWhile_of_ne_nil isWsJs _ hYne, List.getLast?_reverse] at hc2
    have := dropWhile_head_not isWsJs X c hc2
    intro hceq
    subst hceq
    simp [isWsJs] at this
  · intro c hc
    show c ≠ ' '
    have hc2 : c ∈ ((X.dropWhile isWsJs).reverse.dropWhile isWsJs).head? := by
      rw [← List.getLast?_reverse]
      exact hc
    have := dropWhile_head_not isWsJs _ c hc2
    intro hceq
    subst hceq
    simp [isWsJs] at this

theorem normalize_id_of_canon (l : List Char) (h : CanonShape l) :
    normalizeChars l = l := by
  have hall : ∀ c ∈ l, allowedChar c = true := by
    intro c hc
    rcases h.chars c hc with hcanon | rfl
    · exact allowed_of_canon hcanon
    · decide
  unfold normalizeChars
  rw [map_id_on l (fun c hc => strip_id_of_allowed (hall c hc))]
  rw [map_id_on l (fun c hc => lower_id_of_allowed (hall c hc))]
  rw [map_id_on l (fun c hc => if_pos (hall c hc))]
  have hws : ∀ c ∈ l, isWsJs c = true → c = ' ' := by
    intro c hc hwc
    rcases h.chars c hc with hcanon | rfl
    · rw [not_ws_of_canon hcanon] at hwc
      cases hwc
    · rfl
  rw [show collapseWs l = l from (collapse_id_aux l hws h.nodbl).1]
  refine trim_id_of l ?_ ?_
  · intro c hc
    rcases h.chars c (List.mem_of_mem_head? hc) with hcanon | rfl
    · exact not_ws_of_canon hcanon
    · exact absurd rfl (h.hd ' ' hc)
  · intro c hc
    rcases h.chars c (List.mem_of_mem_getLast? hc) with hcanon | rfl
    · exact not_ws_of_canon hcanon
    · exact absurd rfl (h.lst ' ' hc)

theorem normalizeChars_idem (l : List Char) :
    normalizeChars (normalizeChars l) = normalizeChars l :=
  normalize_id_of_canon _ (canonShape_normalize l)

theorem foldl_scan_eq_filterMap (f : List Char → Option BiomarkerRecord) :
    ∀ (lines : List (List Char)) (acc : List BiomarkerRecord),
      lines.foldl
        (fun acc line =>
          match f line with
          | some r => insertRecord acc r
          | none => acc)
        acc
        = (lines.filterMap f).foldl insertRecord acc
  | [], acc => rfl
  | line :: lines, acc => by
    rw [List.foldl_cons, List.filterMap_cons]
    cases hf : f line with
    | none => exact foldl_scan_eq_filterMap f lines acc
    | some r =>
      rw [List.foldl_cons]
      exact foldl_scan_eq_filterMap f lines (insertRecord acc r)

theorem any_eq_isSome_find? (acc : List BiomarkerRecord) (b : String) :
    acc.any (fun s => s.biomarker = b)
      = (acc.find? (fun s => s.biomarker = b)).isSome := by
  induction acc with
  | nil => rfl
  | cons r rs ih =>
    rw [List.any_cons, List.find?_cons]
    by_cases hr : r.biomarker = b
    · simp [hr]
    · rw [decide_eq_false hr]
      simp only [Bool.false_or, Option.isSome]
      exact ih

theorem find?_foldl_insertRecord (c : String) :
    ∀ (rs acc : List BiomarkerRecord),
      (rs.foldl insertRecord acc).find? (fun r => r.biomarker = c)
        = (match acc.find? (fun r => r.biomarker = c) with
           | some r => some r
           | none => rs.find? (fun r => r.biomarker = c))
  | [], acc => by
    cases h : acc.find? (fun r => r.biomarker = c) <;> simp [h]
  | r :: rs, acc => by
    rw [List.foldl_cons, find?_foldl_insertRecord c rs (insertRecord acc r)]
    unfold insertRecord
    by_cases hmem : acc.any (fun s => s.biomarker = r.biomarker) = true
    · rw [if_pos hmem]
      cases hacc : acc.find? (fun s => s.biomarker = c) with
      | some x => rfl
      | none =>
        rw [List.find?_cons]
        by_cases hr : r.biomarker = c
        · exfalso
          rw [any_eq_isSome_find?] at hmem
          rw [hr] at hmem
          rw [hacc] at hmem
          cases hmem
        · simp [hr]
    · rw [if_neg hmem]
      cases hacc : acc.find? (fun s => s.biomarker = c) with
      | some x =>
        have : (acc ++ [r]).find? (fun s => s.biomarker = c) = some x := by
          rw [List.find?_append, hacc]
          rfl
        rw [this]
      | none =>
        have : (acc ++ [r]).find? (fun s => s.biomarker = c)
            = [r].find? (fun s => s.biomarker = c) := by
          rw [List.find?_append, hacc]
          rfl
        rw [this, List.find?_cons]
        rw [List.find?_cons]
        by_cases hr : r.biomarker = c
        · simp [hr]
        · simp [hr]

theorem pairwise_foldl_insertRecord :
    ∀ (rs acc : List BiomarkerRecord),
      acc.Pairwise (fun a b => a.biomarker ≠ b.biomarker) →
      (rs.foldl insertRecord acc).Pairwise (fun a b => a.biomarker ≠ b.biomarker)
  | [], _, h => h
  | r :: rs, acc, h => by
    rw [List.foldl_cons]
    refine pairwise_foldl_insertRecord rs (insertRecord acc r) ?_
    unfold insertRecord
    by_cases hmem : acc.any (fun s => s.biomarker = r.biomarker) = true
    · rwa [if_pos hmem]
    · rw [if_neg hmem]
      rw [List.pairwise_append]
      refine ⟨h, List.pairwise_singleton _ _, ?_⟩
      intro a ha b hb
      simp only [List.mem_singleton] at hb
      subst hb
      intro heq
      apply hmem
      rw [List.any_eq_true]
      exact ⟨a, ha, by simp [heq]⟩

theorem scanAliases_cons_success (cat : Catalog) (d : Option String)
    (al canonical : String) (rest : List (String × String)) (line : List Char)
    (m : ℕ × ℕ) (cand : ValueCandidate)
    (hm : findAliasMatch line al.data = some m)
    (hskip : skipForCanonical canonical line = false)
    (hc : findValueCandidate (line.drop m.2) = some cand) :
    scanAliases cat d ((al, canonical) :: rest) line
      = some (mkRecord cat d canonical cand) := by
  unfold scanAliases
  rw [hm, hskip]
  simp only [Bool.false_eq_true, if_false]
  rw [hc]

theorem computeLevelLoop_none_last (e : BiomarkerEntry) (v : ℚ) (s : Sex)
    (h : computeLevelLoop e v s levelOrder = none) :
    (jsTruthy (pickSexRule e .malo s) &&
      matchRule (pickSexRule e .malo s) v) = false := by
  simp only [levelOrder, computeLevelLoop] at h
  split_ifs at h with h1 h2 h3 h4
  exact Bool.eq_false_iff.mpr h4

/-! ## Claim theorems -/

set_option maxRecDepth 100000

/-- C1, counterexample: on the stipulated two-line input the extractor
does return two records with values 92 and 210, but the second record's
units are `"mg/dl"`, not `"mg/dL"` as the claim states — `normalize`
lowercases the whole line before the unit is captured, so the unit's
letter case is NOT preserved from the source text. -/
theorem c1_units_lowercased :
    (parseBiomarkersFromFreeText glucosaCatalog c1Text none).map
      (fun r => r.units) = [some "mg/dl", some "mg/dl"] ∧
    (some "mg/dl" : Option String) ≠ some "mg/dL" := by
  constructor
  · decide
  · decide

/-- C1, amended: the two-line input yields exactly the two claimed
records — biomarker, numeric value, and category as stated — except
that both unit strings are the lowercased `"mg/dl"` (the normalizer
lowercases each line before capture). -/
theorem c1_end_to_end :
    parseBiomarkersFromFreeText glucosaCatalog c1Text none =
      [⟨"Glucosa", .num 92, some "mg/dl", none, some "metabolic"⟩,
       ⟨"Colesterol Total", .num 210, some "mg/dl", none,
         some "cardiovascular"⟩] := by
  decide

/-- C2: a row carrying a precomputed qualitative level is scored by the
fixed level→score table alone; the numeric value and bounds are ignored
(`rowScore` is modelled from the spec because `scoringUtil.ts` is not in
the sources). -/
theorem c2_level_bypass (r : BiomarkerRow) (lvl : LevelKey)
    (h : r.referenceLevel = some lvl) :
    rowScore r = LEVEL_SCORE lvl ∧
    ∀ (v : ℚ) (lo hi : Option ℚ),
      rowScore { r with value := v, refLow := lo, refHigh := hi }
        = LEVEL_SCORE lvl := by
  constructor
  · unfold rowScore
    rw [h]
  · intro v lo hi
    unfold rowScore
    show (match r.referenceLevel with
          | some lvl => LEVEL_SCORE lvl
          | none => rowScoreNumeric { r with value := v, refLow := lo, refHigh := hi }) = _
    rw [h]

/-- C2 witness: a concrete row with level `malo`, numeric value inside
its own bounds, still scores 0.2. -/
theorem c2_level_bypass_witness :
    (⟨"x", 85, none, some 70, some 99, none, some .malo, none⟩ :
        BiomarkerRow).referenceLevel = some .malo ∧
    rowScore ⟨"x", 85, none, some 70, some 99, none, some .malo, none⟩
      = LEVEL_SCORE .malo :=
  ⟨rfl, (c2_level_bypass _ .malo rfl).1⟩

/-- C3, counterexample: the claim's second half fails.  For the line
`"glucosa < 100 mg/dl"` the extractor DOES extract 100 as glucosa's
value, because `normalize` replaces `<` by a space before the value
search runs, so the comparator-rejection in `findValueCandidate` never
sees the comparator token. -/
theorem c3_comparator_extracted :
    parseBiomarkersFromFreeText glucosaOnlyCatalog "glucosa < 100 mg/dl" none =
      [⟨"glucosa", .num 100, some "mg/dl", none, none⟩] := by
  decide

/-- C3, amended: range rejection works as claimed
(`"colesterol 150 - 200 mg/dl"` yields nothing), and
`findValueCandidate` itself does reject a comparator-prefixed number —
but inside `parseBiomarkersFromFreeText` the normalizer deletes the
comparator first, so `"glucosa < 100 mg/dl"` extracts 100 after all. -/
theorem c3_range_and_comparator :
    parseBiomarkersFromFreeText colesterolCatalog
      "colesterol 150 - 200 mg/dl" none = [] ∧
    findValueCandidate "< 100 mg/dl".data = none ∧
    parseBiomarkersFromFreeText glucosaOnlyCatalog "glucosa < 100 mg/dl" none =
      [⟨"glucosa", .num 100, some "mg/dl", none, none⟩] := by
  refine ⟨by decide, by decide, by decide⟩

/-- C5, counterexample: scanning does NOT continue with the next alias
pair after a successful extraction of an already-recorded biomarker.
With catalog {A ↦ "aa", B ↦ "b"} and input `"aa 1\naa 2 b 3"`, the
second line's scan succeeds on alias "aa" (A already recorded), the
unconditional `break` fires, and B's same-line value 3 is never
recorded — the claim would require a B record. -/
theorem c5_break_unconditional :
    parseBiomarkersFromFreeText abCatalog "aa 1\naa 2 b 3" none =
      [⟨"A", .num 1, none, none, some "general"⟩] ∧
    (parseBiomarkersFromFreeText abCatalog "aa 1\naa 2 b 3" none).all
      (fun r => r.biomarker ≠ "B") ∧
    parseBiomarkersFromFreeText abCatalog "b 3" none =
      [⟨"B", .num 3, none, none, some "general"⟩] := by
  refine ⟨by decide, by decide, by decide⟩

/-- C5, amended: the per-line alias scan stops at the FIRST successful
extraction, whether or not that biomarker is already recorded; the
remaining alias pairs of the line are never consulted (the scan result
does not depend on them), and the dedup guard only suppresses the
duplicate push.  On `"aa 1\naa 2 b 3"` this leaves exactly the single
record A = 1. -/
theorem c5_scan_stops_on_success :
    (∀ (cat : Catalog) (d : Option String) (al canonical : String)
       (rest : List (String × String)) (line : List Char) (m : ℕ × ℕ)
       (cand : ValueCandidate),
       findAliasMatch line al.data = some m →
       skipForCanonical canonical line = false →
       findValueCandidate (line.drop m.2) = some cand →
       scanAliases cat d ((al, canonical) :: rest) line
         = some (mkRecord cat d canonical cand)) ∧
    parseBiomarkersFromFreeText abCatalog "aa 1\naa 2 b 3" none =
      [⟨"A", .num 1, none, none, some "general"⟩] := by
  exact ⟨fun cat d al canonical rest line m cand hm hskip hc =>
    scanAliases_cons_success cat d al canonical rest line m cand hm hskip hc,
    by decide⟩

/-- C5 witness: the general scan-stop statement applied to the line
`"aa 2 b 3"` of the counterexample input, with the B alias pair still
pending in the scan list. -/
theorem c5_scan_stops_on_success_witness :
    scanAliases abCatalog none
        [("aa", "A"), ("a", "A"), ("b", "B")] "aa 2 b 3".data
      = some (mkRecord abCatalog none "A" ⟨['2'], none⟩) :=
  c5_scan_stops_on_success.1 abCatalog none "aa" "A" [("a", "A"), ("b", "B")]
    "aa 2 b 3".data (0, 2) ⟨['2'], none⟩ (by decide) (by decide) (by decide)

/-- C4: for every reference entry whose applicable unisex rule is
"70 - 99" for `bueno` and "< 70 o > 125" for `malo`, with no rule for
the other levels, `computeLevel` classifies 85 as bueno and both 60 and
200 as malo — the two disjuncts of the malo rule, separated by the word
"o", act as a logical OR. -/
theorem c4_compute_level_rules (e : BiomarkerEntry)
    (hx : pickSexRule e .excelente .U = none)
    (hb : pickSexRule e .bueno .U = some "70 - 99")
    (hr : pickSexRule e .regular .U = none)
    (hm : pickSexRule e .malo .U = some "< 70 o > 125") :
    computeLevel e 85 .U = some .bueno ∧
    computeLevel e 60 .U = some .malo ∧
    computeLevel e 200 .U = some .malo := by
  refine ⟨?_, ?_, ?_⟩ <;>
  · simp only [computeLevel, levelOrder, computeLevelLoop, hx, hb, hr, hm]
    decide

/-- C4 witness: the concrete entry realising the stipulated rule
texts. -/
theorem c4_compute_level_rules_witness :
    pickSexRule glucoseEntry .excelente .U = none ∧
    pickSexRule glucoseEntry .bueno .U = some "70 - 99" ∧
    pickSexRule glucoseEntry .regular .U = none ∧
    pickSexRule glucoseEntry .malo .U = some "< 70 o > 125" ∧
    (computeLevel glucoseEntry 85 .U = some .bueno ∧
     computeLevel glucoseEntry 60 .U = some .malo ∧
     computeLevel glucoseEntry 200 .U = some .malo) :=
  ⟨by decide, by decide, by decide, by decide,
   c4_compute_level_rules glucoseEntry (by decide) (by decide) (by decide)
     (by decide)⟩

/-- C6: for every catalog, input text and date, no two returned records
share a canonical biomarker, and the record kept for each canonical
biomarker is exactly the first successful per-line extraction event in
document order (later events for the same biomarker are discarded). -/
theorem c6_dedup_first_wins (cat : Catalog) (text : String)
    (d : Option String) :
    (parseBiomarkersFromFreeText cat text d).Pairwise
      (fun a b => a.biomarker ≠ b.biomarker) ∧
    ∀ c : String,
      (parseBiomarkersFromFreeText cat text d).find?
          (fun r => r.biomarker = c)
        = (extractionEvents cat text d).find? (fun r => r.biomarker = c) := by
  have hparse : parseBiomarkersFromFreeText cat text d
      = (extractionEvents cat text d).foldl insertRecord [] :=
    foldl_scan_eq_filterMap (scanAliases cat d (aliasEntriesOf cat))
      (linesOf text) []
  constructor
  · rw [hparse]
    exact pairwise_foldl_insertRecord _ [] List.Pairwise.nil
  · intro c
    rw [hparse, find?_foldl_insertRecord]
    rfl

/-- C7: with both "transferrina" and the longer alias
"saturacion de transferrina" in the catalog, owned by different
canonical biomarkers, every line in which the longer alias occurs at
token boundaries followed by an acceptable value resolves to the owner
of the longer alias, never to the owner of "transferrina". -/
theorem c7_longest_alias_first (d : Option String) (line : List Char)
    (m : ℕ × ℕ) (cand : ValueCandidate)
    (hm : findAliasMatch line "saturacion de transferrina".data = some m)
    (hc : findValueCandidate (line.drop m.2) = some cand) :
    ∃ r, scanAliases transferrinaCatalog d
        (aliasEntriesOf transferrinaCatalog) line = some r ∧
      r.biomarker = "SaturacionTransferrina" ∧
      r.biomarker ≠ "Transferrina" := by
  have he : aliasEntriesOf transferrinaCatalog =
      [("saturacion de transferrina", "SaturacionTransferrina"),
       ("saturaciontransferrina", "SaturacionTransferrina"),
       ("transferrina", "Transferrina")] := by decide
  rw [he]
  refine ⟨mkRecord transferrinaCatalog d "SaturacionTransferrina" cand,
    ?_, rfl, ?_⟩
  · exact scanAliases_cons_success transferrinaCatalog d
      "saturacion de transferrina" "SaturacionTransferrina" _ line m cand hm
      (if_neg (by decide)) hc
  · show ("SaturacionTransferrina" : String) ≠ "Transferrina"
    decide

/-- C7 witness: the line `"saturacion de transferrina 45"`. -/
theorem c7_longest_alias_first_witness :
    findAliasMatch "saturacion de transferrina 45".data
        "saturacion de transferrina".data = some (0, 26) ∧
    ∃ r, scanAliases transferrinaCatalog none
        (aliasEntriesOf transferrinaCatalog)
        "saturacion de transferrina 45".data = some r ∧
      r.biomarker = "SaturacionTransferrina" ∧
      r.biomarker ≠ "Transferrina" :=
  ⟨by decide, c7_longest_alias_first none "saturacion de transferrina 45".data
    (0, 26) ⟨['4', '5'], none⟩ (by decide) (by decide)⟩

/-- C10: `computeLevel` agrees everywhere with the variant lacking the
final defensive `malo` re-check: whenever the fallback would match, the
priority loop has already returned `malo`, so the fallback is dead
code. -/
theorem c10_fallback_redundant (e : BiomarkerEntry) (v : ℚ) (s : Sex) :
    computeLevel e v s = computeLevelNoFallback e v s := by
  unfold computeLevel computeLevelNoFallback
  cases hl : computeLevelLoop e v s levelOrder with
  | some lvl => rfl
  | none =>
    show (if (jsTruthy (pickSexRule e .malo s) &&
        matchRule (pickSexRule e .malo s) v) = true
      then some LevelKey.malo else none) = none
    rw [computeLevelLoop_none_last e v s hl]
    rfl

theorem rowScoreNumeric_in_range (r : BiomarkerRow) (lo hi : ℚ)
    (hL : r.refLow = some lo) (hH : r.refHigh = some hi)
    (h1 : lo ≤ r.value) (h2 : r.value ≤ hi) : rowScoreNumeric r = 1 := by
  simp only [rowScoreNumeric, geLowBound, leHighBound, hL, hH]
  rw [decide_eq_true h1, decide_eq_true h2]
  simp

theorem rowScoreNumeric_above (r : BiomarkerRow) (lo hi : ℚ)
    (hL : r.refLow = some lo) (hH : r.refHigh = some hi)
    (hge : lo ≤ r.value) (hgt : hi < r.value) :
    rowScoreNumeric r
      = max 0 (1 - (r.value - hi) / max (1 / 1000000000) (hi - lo)) := by
  simp only [rowScoreNumeric, geLowBound, leHighBound, hL, hH]
  rw [decide_eq_false (not_le.mpr hgt)]
  rw [if_neg (by simp), if_neg (by simp)]
  rw [if_neg (not_lt.mpr hge)]

theorem score_clamp_bounds (dist width : ℚ) (hd : 0 ≤ dist) (hw : 0 < width) :
    0 ≤ max 0 (1 - dist / width) ∧ max 0 (1 - dist / width) ≤ 1 := by
  constructor
  · exact le_max_left _ _
  · refine max_le (by norm_num) ?_
    have := div_nonneg hd hw.le
    linarith

theorem rowScoreNumeric_bounds (r : BiomarkerRow) :
    0 ≤ rowScoreNumeric r ∧ rowScoreNumeric r ≤ 1 := by
  have hwidth2 : (0:ℚ) < max (1 / 1000000000) (|r.value| * (2 / 10)) :=
    lt_of_lt_of_le (by norm_num) (le_max_left _ _)
  rcases hL : r.refLow with _ | lo <;> rcases hH : r.refHigh with _ | hi
  · simp [rowScoreNumeric, hL, hH]
  · simp only [rowScoreNumeric, geLowBound, leHighBound, hL, hH]
    rw [if_neg (by simp), Bool.true_and]
    split_ifs with hin
    · norm_num
    · have hgt : ¬ (r.value ≤ hi) := fun hle => hin (decide_eq_true hle)
      exact score_clamp_bounds _ _ (by linarith [not_le.mp hgt]) hwidth2
  · simp only [rowScoreNumeric, geLowBound, leHighBound, hL, hH]
    rw [if_neg (by simp), Bool.and_true]
    split_ifs with hin
    · norm_num
    · have hlt : ¬ (lo ≤ r.value) := fun hle => hin (decide_eq_true hle)
      exact score_clamp_bounds _ _ (by linarith [not_le.mp hlt]) hwidth2
  · simp only [rowScoreNumeric, geLowBound, leHighBound, hL, hH]
    rw [if_neg (by simp)]
    by_cases hin : (decide (lo ≤ r.value) && decide (r.value ≤ hi)) = true
    · rw [if_pos hin]
      norm_num
    · rw [if_neg hin]
      rw [Bool.and_eq_true, decide_eq_true_iff, decide_eq_true_iff] at hin
      have hwidth : (0:ℚ) < max (1 / 1000000000) (hi - lo) :=
        lt_of_lt_of_le (by norm_num) (le_max_left _ _)
      refine score_clamp_bounds _ _ ?_ hwidth
      by_cases hvl : r.value < lo
      · rw [if_pos hvl]
        linarith
      · rw [if_neg hvl]
        rcases not_and_or.mp hin with hc | hc
        · exact absurd (not_lt.mp hvl) hc
        · linarith [not_le.mp hc]

/-- C8, counterexample: the boundary part of the claim fails for ranges
narrower than the 1e-9 width floor.  With refLow = 0 and
refHigh = 1e-10 (so refLow < refHigh), the value 2e-10 lies exactly one
range-width above refHigh, yet its score is 9/10, not 0: the width used
in the penalty is max(1e-9, refHigh − refLow) = 1e-9, not the actual
range width. -/
theorem c8_tiny_range_not_zero :
    (⟨"x", 2 / 10000000000, none, some 0, some (1 / 10000000000), none,
        none, none⟩ : BiomarkerRow).value
      = (1 : ℚ) / 10000000000 + ((1 : ℚ) / 10000000000 - 0) ∧
    (0 : ℚ) < 1 / 10000000000 ∧
    rowScore ⟨"x", 2 / 10000000000, none, some 0, some (1 / 10000000000),
      none, none, none⟩ = 9 / 10 ∧
    (9 : ℚ) / 10 ≠ 0 := by
  refine ⟨by norm_num, by norm_num, ?_, by norm_num⟩
  show rowScoreNumeric _ = 9 / 10
  rw [rowScoreNumeric_above _ 0 (1 / 10000000000) rfl rfl (by norm_num)
    (by norm_num)]
  rw [show max ((1:ℚ) / 1000000000) (1 / 10000000000 - 0) = 1 / 1000000000
    from max_eq_left (by norm_num)]
  rw [show max (0:ℚ) (1 - (2 / 10000000000 - 1 / 10000000000) /
      (1 / 1000000000)) = 1 - (2 / 10000000000 - 1 / 10000000000) /
      (1 / 1000000000) from max_eq_right (by norm_num)]
  norm_num

/-- C8, amended: for every row without a precomputed level the score
lies in [0,1]; and for a row with numeric bounds whose width
refHigh − refLow is at least the 1e-9 floor, the value refHigh scores
1, the value one range-width above refHigh scores 0, and the value two
range-widths above is clamped to 0.  (The claim's boundary statement is
false for widths below 1e-9 — see the counterexample.) -/
theorem c8_score_bounds_and_boundary :
    (∀ r : BiomarkerRow, r.referenceLevel = none →
      0 ≤ rowScore r ∧ rowScore r ≤ 1) ∧
    (∀ (name : String) (unit cat rtxt : Option String) (lo hi : ℚ),
      1 / 1000000000 ≤ hi - lo →
      rowScore ⟨name, hi, unit, some lo, some hi, cat, none, rtxt⟩ = 1 ∧
      rowScore ⟨name, hi + (hi - lo), unit, some lo, some hi, cat, none,
        rtxt⟩ = 0 ∧
      rowScore ⟨name, hi + 2 * (hi - lo), unit, some lo, some hi, cat, none,
        rtxt⟩ = 0) := by
  constructor
  · intro r h
    have : rowScore r = rowScoreNumeric r := by
      unfold rowScore
      rw [h]
    rw [this]
    exact rowScoreNumeric_bounds r
  · intro name unit cat rtxt lo hi hw
    have heps : (0:ℚ) < 1 / 1000000000 := by norm_num
    have hlo : lo < hi := by linarith
    have hwpos : (0:ℚ) < hi - lo := by linarith
    have hmax : max ((1:ℚ) / 1000000000) (hi - lo) = hi - lo :=
      max_eq_right hw
    refine ⟨?_, ?_, ?_⟩
    · show rowScoreNumeric _ = 1
      exact rowScoreNumeric_in_range _ lo hi rfl rfl hlo.le le_rfl
    · show rowScoreNumeric _ = 0
      rw [rowScoreNumeric_above _ lo hi rfl rfl
        (by show lo ≤ hi + (hi - lo); linarith)
        (by show hi < hi + (hi - lo); linarith)]
      rw [hmax, show hi + (hi - lo) - hi = hi - lo from by ring,
        div_self hwpos.ne']
      norm_num
    · show rowScoreNumeric _ = 0
      rw [rowScoreNumeric_above _ lo hi rfl rfl
        (by show lo ≤ hi + 2 * (hi - lo); linarith)
        (by show hi < hi + 2 * (hi - lo); linarith)]
      rw [hmax, show hi + 2 * (hi - lo) - hi = 2 * (hi - lo) from by ring,
        mul_div_assoc, div_self hwpos.ne']
      rw [show (1:ℚ) - 2 * 1 = -1 from by ring]
      exact max_eq_left (by norm_num)

/-- C8 witness: the [0,1] bound at a concrete out-of-range row and the
boundary equalities for the range 70–99. -/
theorem c8_score_bounds_and_boundary_witness :
    ((⟨"x", 103, none, some 70, some 99, none, none, none⟩ :
        BiomarkerRow).referenceLevel = none ∧
      0 ≤ rowScore ⟨"x", 103, none, some 70, some 99, none, none, none⟩ ∧
      rowScore ⟨"x", 103, none, some 70, some 99, none, none, none⟩ ≤ 1) ∧
    ((1 : ℚ) / 1000000000 ≤ 99 - 70 ∧
      rowScore ⟨"x", (99:ℚ), none, some 70, some 99, none, none, none⟩ = 1 ∧
      rowScore ⟨"x", 99 + (99 - 70), none, some 70, some 99, none, none,
        none⟩ = 0 ∧
      rowScore ⟨"x", 99 + 2 * (99 - 70), none, some 70, some 99, none, none,
        none⟩ = 0) :=
  ⟨⟨rfl, (c8_score_bounds_and_boundary.1 _ rfl).1,
    (c8_score_bounds_and_boundary.1 _ rfl).2⟩,
   by norm_num,
   c8_score_bounds_and_boundary.2 "x" none none none 70 99 (by norm_num)⟩

/-- C9: the text normalizer is idempotent — applying it twice gives the
same result as applying it once, for every input string. -/
theorem c9_normalize_idempotent (s : String) :
    normalizeStr (normalizeStr s) = normalizeStr s :=
  congrArg String.mk (normalizeChars_idem s.data)
